import Mathlib

/-!
Verification of the youtwoeff U2F server core (Go, package main).

The source keeps all state in a bolt database: one bucket per user, and
inside each bucket a flat byte-string key space holding
  * the key "challenge"        (JSON-serialized u2f.Challenge),
  * the keys "reg-0".."reg-9"  (JSON-serialized RegistrationSer records),
  * one key per key handle     (uvarint-encoded replay counter).

The embedding below models buckets as association lists from `String` keys
to a `StoredVal` tag that records which serialized form the bytes carry;
byte-level codecs (uvarint for counters, base64 plus decimal digits for the
JSON field encodings of `[]byte` and `*big.Int`) are implemented concretely
so that round-trip claims are proved, not assumed.  A bolt `db.Update`
whose inner function returns an error rolls the transaction back, so every
mutating operation is modelled as `Except String Store`: an `.error` result
leaves the caller's store untouched.
-/

namespace YouTwoEff

/-! ## Byte-level codecs -/

/-- One step of Go `binary.PutUvarint`: emit base-128 digits little-endian,
setting the continuation bit (adding 128) on every digit except the last.
The first argument is fuel; `putUvarint` supplies `n` itself, which always
suffices since the value shrinks by a factor of 128 per step. -/
def putUvarintAux : Nat → Nat → List Nat
  | 0, n => [n]
  | fuel + 1, n => if n < 128 then [n] else (n % 128 + 128) :: putUvarintAux fuel (n / 128)

/-- Go `binary.PutUvarint` applied to a 32-byte scratch buffer and sliced to
the written length, as in `saveCounter`. -/
def putUvarint (n : Nat) : List Nat :=
  putUvarintAux n n

/-- Go `binary.ReadUvarint`: accumulate 7-bit groups until a byte without
the continuation bit; `none` models the read error on truncated input. -/
def readUvarint : List Nat → Option Nat
  | [] => none
  | b :: rest =>
    if b < 128 then some b
    else (readUvarint rest).map (fun m => m * 128 + (b - 128))

theorem readUvarint_putUvarintAux (fuel n : Nat) (h : n ≤ fuel) :
    readUvarint (putUvarintAux fuel n) = some n := by
  induction fuel generalizing n with
  | zero =>
    have : n = 0 := Nat.le_zero.mp h
    subst this
    simp [putUvarintAux, readUvarint]
  | succ fuel ih =>
    by_cases hn : n < 128
    · simp only [putUvarintAux, readUvarint, hn, if_true]
    · have hrec : n / 128 ≤ fuel := by omega
      have hge : ¬ (n % 128 + 128 < 128) := by omega
      have hsub : n % 128 + 128 - 128 = n % 128 := by omega
      simp only [putUvarintAux, if_neg hn, readUvarint, if_neg hge,
        ih (n / 128) hrec, Option.map_some', hsub, Option.some.injEq]
      omega

theorem readUvarint_putUvarint (n : Nat) :
    readUvarint (putUvarint n) = some n :=
  readUvarint_putUvarintAux n n (Nat.le_refl n)

/-- Standard base64 sextet stream of a byte list (no padding characters;
the length mod 4 of the output determines the tail size on decode), as
produced by Go `encoding/json` for `[]byte` fields. -/
def b64encode : List Nat → List Nat
  | [] => []
  | [b1] => [b1 / 4, b1 % 4 * 16]
  | [b1, b2] => [b1 / 4, b1 % 4 * 16 + b2 / 16, b2 % 16 * 4]
  | b1 :: b2 :: b3 :: rest =>
    b1 / 4 :: (b1 % 4 * 16 + b2 / 16) :: (b2 % 16 * 4 + b3 / 64) :: b3 % 64 :: b64encode rest

/-- Base64 decoding of a sextet stream back to bytes; a stream of length
congruent to 1 mod 4 is malformed. -/
def b64decode : List Nat → Except String (List Nat)
  | [] => .ok []
  | [_] => .error "illegal base64 data"
  | [c1, c2] => .ok [c1 * 4 + c2 / 16]
  | [c1, c2, c3] => .ok [c1 * 4 + c2 / 16, c2 % 16 * 16 + c3 / 4]
  | c1 :: c2 :: c3 :: c4 :: rest =>
    (b64decode rest).map fun bs =>
      (c1 * 4 + c2 / 16) :: (c2 % 16 * 16 + c3 / 4) :: (c3 % 4 * 64 + c4) :: bs

/-- A list is a byte list when every element fits in one byte. -/
def isBytes (bs : List Nat) : Prop := ∀ x ∈ bs, x < 256

instance (bs : List Nat) : Decidable (isBytes bs) := by
  unfold isBytes
  infer_instance

theorem b64decode_b64encode (bs : List Nat) (h : isBytes bs) :
    b64decode (b64encode bs) = .ok bs := by
  induction bs using b64encode.induct with
  | case1 => simp [b64encode, b64decode]
  | case2 b1 =>
    have h1 : b1 < 256 := h b1 (by simp)
    simp only [b64encode, b64decode, Except.ok.injEq, List.cons.injEq, and_true]
    omega
  | case3 b1 b2 =>
    have h1 : b1 < 256 := h b1 (by simp)
    have h2 : b2 < 256 := h b2 (by simp)
    simp only [b64encode, b64decode, Except.ok.injEq, List.cons.injEq, and_true]
    omega
  | case4 b1 b2 b3 rest ih =>
    have h1 : b1 < 256 := h b1 (by simp)
    have h2 : b2 < 256 := h b2 (by simp)
    have h3 : b3 < 256 := h b3 (by simp)
    have hrest : isBytes rest := by
      intro x hx
      exact h x (by simp [hx])
    have hdec : b64decode
        (b1 / 4 :: (b1 % 4 * 16 + b2 / 16) :: (b2 % 16 * 4 + b3 / 64) :: b3 % 64 ::
          b64encode rest) =
        (b64decode (b64encode rest)).map fun bs =>
          (b1 / 4 * 4 + (b1 % 4 * 16 + b2 / 16) / 16) ::
          ((b1 % 4 * 16 + b2 / 16) % 16 * 16 + (b2 % 16 * 4 + b3 / 64) / 4) ::
          ((b2 % 16 * 4 + b3 / 64) % 4 * 64 + b3 % 64) :: bs := by
      rfl
    simp only [b64encode]
    rw [hdec, ih hrest]
    simp only [Except.map, Except.ok.injEq, List.cons.injEq]
    refine ⟨by omega, by omega, by omega, trivial⟩

/-- Little-endian base-10 digits (fuelled so that the definition reduces by
kernel evaluation); models the decimal rendering `math/big` uses for JSON. -/
def decDigitsAux : Nat → Nat → List Nat
  | 0, _ => []
  | fuel + 1, n => if n = 0 then [] else n % 10 :: decDigitsAux fuel (n / 10)

def decDigits (n : Nat) : List Nat :=
  decDigitsAux n n

/-- Value of a little-endian base-10 digit list. -/
def decVal : List Nat → Nat
  | [] => 0
  | d :: ds => d + 10 * decVal ds

theorem decVal_decDigitsAux (fuel n : Nat) (h : n ≤ fuel) :
    decVal (decDigitsAux fuel n) = n := by
  induction fuel generalizing n with
  | zero =>
    have : n = 0 := Nat.le_zero.mp h
    subst this
    simp [decDigitsAux, decVal]
  | succ fuel ih =>
    by_cases hn : n = 0
    · simp [decDigitsAux, decVal, hn]
    · have hrec : n / 10 ≤ fuel := by omega
      simp only [decDigitsAux, if_neg hn, decVal, ih (n / 10) hrec]
      omega

theorem decVal_decDigits (n : Nat) : decVal (decDigits n) = n :=
  decVal_decDigitsAux n n (Nat.le_refl n)

/-- JSON rendering of a `*big.Int`: a sign and the decimal digits of the
absolute value. -/
def intEncode (x : Int) : Bool × List Nat :=
  (decide (x < 0), decDigits x.natAbs)

def intDecode (p : Bool × List Nat) : Int :=
  if p.1 then -(decVal p.2 : Int) else (decVal p.2 : Int)

theorem intDecode_intEncode (x : Int) : intDecode (intEncode x) = x := by
  unfold intEncode intDecode
  simp only [decide_eq_true_eq, decVal_decDigits]
  by_cases hx : x < 0
  · rw [if_pos hx]
    omega
  · rw [if_neg hx]
    omega

/-! ## Data model -/

/-- Go `u2f.Challenge` (external library struct persisted by `setChallenge`):
random nonce bytes, creation timestamp, relying-party identifier and
trusted facet list. -/
structure Challenge where
  value : List Nat
  timestamp : Nat
  appID : String
  trustedFacets : List String
deriving DecidableEq, Repr

/-- Go `u2f.Registration`: raw registration payload, key handle bytes and
the P-256 public-key coordinates; the attestation certificate is carried
as its raw bytes and may be absent. -/
structure Registration where
  Raw : List Nat
  KeyHandle : List Nat
  pubX : Int
  pubY : Int
  AttestationCert : Option (List Nat)
deriving DecidableEq, Repr

/-- Go struct `RegistrationSer` (the shape marshalled to storage). -/
structure RegistrationSer where
  Raw : List Nat
  KeyHandle : List Nat
  X : Int
  Y : Int
  AttestationCert : Option (List Nat)
deriving DecidableEq, Repr

/-- Field-by-field conversion performed in `saveRegistration` when building
the `RegistrationSer` literal from a `u2f.Registration`. -/
def serOfReg (r : Registration) : RegistrationSer :=
  ⟨r.Raw, r.KeyHandle, r.pubX, r.pubY, r.AttestationCert⟩

/-- Field-by-field conversion performed in `getRegistrations` when building
the `u2f.Registration` (curve fixed to P-256) from a `RegistrationSer`. -/
def regOfSer (rs : RegistrationSer) : Registration :=
  ⟨rs.Raw, rs.KeyHandle, rs.X, rs.Y, rs.AttestationCert⟩

/-- The JSON encoding of a `RegistrationSer` value as stored by
`json.Marshal`: base64 for the byte-string fields, sign-and-decimal-digits
for the two `*big.Int` coordinates. -/
structure RegEnc where
  raw : List Nat
  keyHandle : List Nat
  x : Bool × List Nat
  y : Bool × List Nat
  cert : Option (List Nat)
deriving DecidableEq, Repr

def encodeRegSer (rs : RegistrationSer) : RegEnc :=
  ⟨b64encode rs.Raw, b64encode rs.KeyHandle, intEncode rs.X, intEncode rs.Y,
    rs.AttestationCert.map b64encode⟩

def decodeRegSer (e : RegEnc) : Except String RegistrationSer :=
  match b64decode e.raw, b64decode e.keyHandle with
  | .ok raw, .ok kh =>
    match e.cert with
    | none => .ok ⟨raw, kh, intDecode e.x, intDecode e.y, none⟩
    | some c => (b64decode c).map fun cb => ⟨raw, kh, intDecode e.x, intDecode e.y, some cb⟩
  | .error s, _ => .error s
  | .ok _, .error s => .error s

/-- Well-formedness of a registration: its byte-string fields hold bytes
(the certificate condition is stated through `Option.getD`, which is
equivalent and keeps the predicate decidable). -/
def wfReg (r : Registration) : Prop :=
  isBytes r.Raw ∧ isBytes r.KeyHandle ∧ isBytes (r.AttestationCert.getD [])

instance (r : Registration) : Decidable (wfReg r) := by
  unfold wfReg
  infer_instance

theorem decodeRegSer_encodeRegSer (r : Registration) (h : wfReg r) :
    decodeRegSer (encodeRegSer (serOfReg r)) = .ok (serOfReg r) := by
  obtain ⟨hraw, hkh, hcert⟩ := h
  rcases r with ⟨raw, kh, x, y, cert⟩
  cases cert with
  | none =>
    simp [serOfReg, encodeRegSer, decodeRegSer, b64decode_b64encode _ hraw,
      b64decode_b64encode _ hkh, intDecode_intEncode]
  | some c =>
    have hc : isBytes c := hcert
    simp [serOfReg, encodeRegSer, decodeRegSer, b64decode_b64encode _ hraw,
      b64decode_b64encode _ hkh, b64decode_b64encode _ hc, intDecode_intEncode,
      Except.map]

/-! ## The stored-value tag and the bolt store model -/

/-- A value persisted in a user bucket.  The tag records which serializer
produced the bytes: `ch` for the JSON challenge written by `setChallenge`,
`reg` for the JSON `RegistrationSer` written by `saveRegistration`, `ctr`
for the uvarint counter bytes written by `saveCounter`.  JSON text always
starts with the byte 123 (left brace), so `binary.ReadUvarint` applied to a
JSON value yields 123, and `json.Unmarshal` applied to uvarint counter
bytes fails; the operations below encode exactly these cross-reads. -/
inductive StoredVal where
  | ch (c : Challenge)
  | reg (e : RegEnc)
  | ctr (bs : List Nat)
deriving DecidableEq, Repr

/-- A bolt bucket: association list from key to stored value. -/
abbrev Bucket := List (String × StoredVal)

/-- The bolt database: association list from user (bucket name) to bucket. -/
abbrev Store := List (String × Bucket)

def bget (b : Bucket) (k : String) : Option StoredVal :=
  match b with
  | [] => none
  | (k', v) :: rest => if k' = k then some v else bget rest k

def bput (b : Bucket) (k : String) (v : StoredVal) : Bucket :=
  match b with
  | [] => [(k, v)]
  | (k', v') :: rest => if k' = k then (k, v) :: rest else (k', v') :: bput rest k v

def bdel (b : Bucket) (k : String) : Bucket :=
  match b with
  | [] => []
  | (k', v') :: rest => if k' = k then bdel rest k else (k', v') :: bdel rest k

def sget (σ : Store) (u : String) : Option Bucket :=
  match σ with
  | [] => none
  | (u', b) :: rest => if u' = u then some b else sget rest u

def sput (σ : Store) (u : String) (b : Bucket) : Store :=
  match σ with
  | [] => [(u, b)]
  | (u', b') :: rest => if u' = u then (u, b) :: rest else (u', b') :: sput rest u b

theorem bget_bput_self (b : Bucket) (k : String) (v : StoredVal) :
    bget (bput b k v) k = some v := by
  induction b with
  | nil => simp [bput, bget]
  | cons hd tl ih =>
    simp only [bput]
    by_cases hk : hd.1 = k
    · rw [if_pos hk]
      simp [bget]
    · rw [if_neg hk]
      simp only [bget]
      rw [if_neg hk]
      exact ih

theorem bget_bput_ne (b : Bucket) (k q : String) (v : StoredVal) (h : q ≠ k) :
    bget (bput b k v) q = bget b q := by
  have h1 : ¬ (k = q) := fun hh => h hh.symm
  induction b with
  | nil =>
    simp only [bput, bget]
    rw [if_neg h1]
  | cons hd tl ih =>
    simp only [bput]
    by_cases hk : hd.1 = k
    · have h2 : ¬ (hd.1 = q) := by rw [hk]; exact h1
      rw [if_pos hk]
      simp only [bget]
      rw [if_neg h1, if_neg h2]
    · rw [if_neg hk]
      simp only [bget]
      by_cases hq : hd.1 = q
      · rw [if_pos hq, if_pos hq]
      · rw [if_neg hq, if_neg hq, ih]

theorem bget_bdel_self (b : Bucket) (k : String) :
    bget (bdel b k) k = none := by
  induction b with
  | nil => rfl
  | cons hd tl ih =>
    simp only [bdel]
    by_cases hk : hd.1 = k
    · rw [if_pos hk]
      exact ih
    · rw [if_neg hk]
      simp only [bget]
      rw [if_neg hk]
      exact ih

theorem bget_bdel_ne (b : Bucket) (k q : String) (h : q ≠ k) :
    bget (bdel b k) q = bget b q := by
  induction b with
  | nil => rfl
  | cons hd tl ih =>
    simp only [bdel]
    by_cases hk : hd.1 = k
    · have h2 : ¬ (hd.1 = q) := by rw [hk]; exact fun hh => h hh.symm
      rw [if_pos hk, ih]
      simp only [bget]
      rw [if_neg h2]
    · rw [if_neg hk]
      simp only [bget]
      by_cases hq : hd.1 = q
      · rw [if_pos hq, if_pos hq]
      · rw [if_neg hq, if_neg hq, ih]

theorem sget_sput_self (σ : Store) (u : String) (b : Bucket) :
    sget (sput σ u b) u = some b := by
  induction σ with
  | nil => simp [sput, sget]
  | cons hd tl ih =>
    simp only [sput]
    by_cases hu : hd.1 = u
    · rw [if_pos hu]
      simp [sget]
    · rw [if_neg hu]
      simp only [sget]
      rw [if_neg hu]
      exact ih

theorem sget_sput_ne (σ : Store) (u q : String) (b : Bucket) (h : q ≠ u) :
    sget (sput σ u b) q = sget σ q := by
  have h1 : ¬ (u = q) := fun hh => h hh.symm
  induction σ with
  | nil =>
    simp only [sput, sget]
    rw [if_neg h1]
  | cons hd tl ih =>
    simp only [sput]
    by_cases hu : hd.1 = u
    · have h2 : ¬ (hd.1 = q) := by rw [hu]; exact h1
      rw [if_pos hu]
      simp only [sget]
      rw [if_neg h1, if_neg h2]
    · rw [if_neg hu]
      simp only [sget]
      by_cases hq : hd.1 = q
      · rw [if_pos hq, if_pos hq]
      · rw [if_neg hq, if_neg hq, ih]

theorem sget_mem (σ : Store) (u : String) (b : Bucket) (h : sget σ u = some b) :
    (u, b) ∈ σ := by
  induction σ with
  | nil => simp [sget] at h
  | cons hd tl ih =>
    by_cases hu : hd.1 = u
    · simp only [sget, if_pos hu, Option.some.injEq] at h
      have : hd = (u, b) := Prod.ext hu h
      rw [this]
      exact List.mem_cons_self _ _
    · simp only [sget, if_neg hu] at h
      exact List.mem_cons_of_mem _ (ih h)

/-! ## Store operations (the Go methods on `YouTwoEff`)

Each mutating method runs inside `db.Update`; bolt rolls the transaction
back when the inner function returns an error, so an `.error` result means
the store is left exactly as it was.  `tx.CreateBucketIfNotExists` fails
only on an empty bucket name (`bolt.ErrBucketNameRequired`). -/

def createBucketIfNotExists (σ : Store) (u : String) :
    Except String (Store × Bucket) :=
  if u = "" then .error "bucket name required"
  else
    match sget σ u with
    | some b => .ok (σ, b)
    | none => .ok (sput σ u [], [])

/-- Go `getChallenge`: inside one `db.Update`, read the "challenge" key
(missing → error), delete it, and unmarshal it; a non-challenge value at
the key is not valid challenge JSON, so unmarshalling fails and the
transaction (including the delete) rolls back. -/
def getChallenge (σ : Store) (user : String) :
    Except String (Challenge × Store) :=
  if user = "" then .error "empty user"
  else
    match createBucketIfNotExists σ user with
    | .error e => .error e
    | .ok (σ1, b) =>
      match bget b "challenge" with
      | none => .error "challenge for user missing"
      | some (.ch c) => .ok (c, sput σ1 user (bdel b "challenge"))
      | some _ => .error "json unmarshal"

/-- Go `setChallenge`: marshal the challenge and put it under the
"challenge" key (no empty-user guard of its own; the empty name is caught
by `CreateBucketIfNotExists`). -/
def setChallenge (σ : Store) (user : String) (c : Challenge) :
    Except String Store :=
  match createBucketIfNotExists σ user with
  | .error e => .error e
  | .ok (σ1, b) => .ok (sput σ1 user (bput b "challenge" (.ch c)))

/-- Registration slot key, `fmt.Sprintf("reg-%d", i)`. -/
def regSlot (i : Nat) : String := "reg-" ++ toString i

/-- The slot indices `0..9` scanned by the source's `for i := 0; i < 10`. -/
def slotIdxs : List Nat := [0, 1, 2, 3, 4, 5, 6, 7, 8, 9]

/-- First free slot index, as found by the source's linear scan. -/
def firstFreeSlot (b : Bucket) : Option Nat :=
  slotIdxs.find? fun i => (bget b (regSlot i)).isNone

/-- Go `saveRegistration`: scan "reg-0".."reg-9" for the first missing key
and store the JSON-marshalled `RegistrationSer` there, returning from the
loop; if every slot is occupied, fail with "number of slots exceeded"
(bolt then rolls the transaction back, so nothing is written). -/
def saveRegistration (σ : Store) (user : String) (reg : Registration) :
    Except String Store :=
  if user = "" then .error "empty user"
  else
    match createBucketIfNotExists σ user with
    | .error e => .error e
    | .ok (σ1, b) =>
      match firstFreeSlot b with
      | some i =>
        .ok (sput σ1 user (bput b (regSlot i) (.reg (encodeRegSer (serOfReg reg)))))
      | none => .error "number of slots exceeded"

/-- One pass of the `for i := 0; i < 10` loop of Go `getRegistrations`:
a missing slot is skipped (`continue`), a stored `RegistrationSer` is
unmarshalled (an unmarshal failure aborts the whole read), and a
non-registration value at a slot key is not valid `RegistrationSer` JSON
(only uvarint counter bytes can ever sit there), so it fails to
unmarshal. -/
def readSlots (b : Bucket) : List Nat → Except String (List Registration)
  | [] => .ok []
  | i :: is =>
    match bget b (regSlot i) with
    | none => readSlots b is
    | some (.reg e) =>
      match decodeRegSer e with
      | .ok rs => (readSlots b is).map fun l => regOfSer rs :: l
      | .error s => .error s
    | some _ => .error "json unmarshal"

/-- Go `getRegistrations`: a read-only `db.View`; a user without a bucket
yields the empty list, never an error. -/
def getRegistrations (σ : Store) (user : String) :
    Except String (List Registration) :=
  match sget σ user with
  | none => .ok []
  | some b => readSlots b slotIdxs

/-- Go `retrieveCounter`: read the value stored under the raw key-handle
string; a missing key yields counter 0; otherwise `binary.ReadUvarint` is
applied to the stored bytes and the result truncated to `uint32`.  A JSON
value (challenge or registration) stored under the key starts with the
byte 123 (left brace), which has no continuation bit, so `ReadUvarint`
returns 123 for it. -/
def retrieveCounter (σ : Store) (user keyHandle : String) :
    Except String (Nat × Store) :=
  if user = "" then .error "empty user"
  else
    match createBucketIfNotExists σ user with
    | .error e => .error e
    | .ok (σ1, b) =>
      match bget b keyHandle with
      | none => .ok (0, σ1)
      | some (.ctr bs) =>
        match readUvarint bs with
        | some n => .ok (n % 2 ^ 32, σ1)
        | none => .error "uvarint read"
      | some (.ch _) => .ok (123 % 2 ^ 32, σ1)
      | some (.reg _) => .ok (123 % 2 ^ 32, σ1)

/-- Go `saveCounter`: `binary.PutUvarint` the `uint32` counter into a
scratch buffer and store the written bytes under the raw key-handle
string. -/
def saveCounter (σ : Store) (user keyHandle : String) (counter : Nat) :
    Except String Store :=
  if user = "" then .error "empty user"
  else
    match createBucketIfNotExists σ user with
    | .error e => .error e
    | .ok (σ1, b) =>
      .ok (sput σ1 user (bput b keyHandle (.ctr (putUvarint (counter % 2 ^ 32)))))

/-- Post-state of an `Except`-returning store mutation: bolt rolls back on
error, so the caller observes the original store. -/
def postStore (r : Except String Store) (σ : Store) : Store :=
  match r with
  | .ok σ' => σ'
  | .error _ => σ

/-- Post-state of a mutation that also returns a value. -/
def postPair {α : Type} (r : Except String (α × Store)) (σ : Store) : Store :=
  match r with
  | .ok p => p.2
  | .error _ => σ

/-- Lookup of one key in one user's bucket, for frame statements. -/
def lookupKey (σ : Store) (user k : String) : Option StoredVal :=
  match sget σ user with
  | none => none
  | some b => bget b k

/-! ## The U2F library authentication step and the HTTP handlers -/

/-- The parsed authentication response body (`u2f.SignResponse`): the
key-handle string echoed by the client, and the counter value carried in
the signature data.  Client data and the signature itself are abstracted
into the verification oracle below. -/
structure SignResponse where
  KeyHandle : String
  counter : Nat
deriving DecidableEq, Repr

/-- Modelled from the spec: `Registration.Authenticate` lives in the
external u2f library (github.com/tstranex/u2f), which is not part of this
repository's sources.  Per spec section 4.4 it checks client data (origin
and challenge binding) and verifies the signature against the credential's
public key — abstracted here into the `verify` oracle — and then enforces
the replay policy of step 5: accept iff the reported counter (a `uint32`
parsed from the 4-byte big-endian field) is strictly greater than the
stored counter, the accepted response's counter becoming the new counter.
Section 9 records that the source's loop retries this verification for
every stored credential, so no key-handle pre-selection happens here. -/
def Authenticate (verify : Registration → SignResponse → Challenge → Bool)
    (reg : Registration) (resp : SignResponse) (c : Challenge)
    (prevCounter : Nat) : Option Nat :=
  if verify reg resp c && decide (prevCounter < resp.counter % 2 ^ 32) then
    some (resp.counter % 2 ^ 32)
  else none

/-- The `for _, reg := range regs` loop of Go `signResponse`: per
credential, retrieve the counter stored under the response's key handle
(an error is a 500), call `Authenticate`, and on success persist the new
counter (error → 500) and answer 200; when every credential fails, answer
the generic 500 "error verifying response". -/
def signLoop (verify : Registration → SignResponse → Challenge → Bool)
    (σ : Store) (user : String) (resp : SignResponse) (c : Challenge) :
    List Registration → Nat × Store
  | [] => (500, σ)
  | reg :: rest =>
    match retrieveCounter σ user resp.KeyHandle with
    | .error _ => (500, σ)
    | .ok (prev, σ1) =>
      match Authenticate verify reg resp c prev with
      | some newC =>
        match saveCounter σ1 user resp.KeyHandle newC with
        | .error _ => (500, σ1)
        | .ok σ2 => (200, σ2)
      | none => signLoop verify σ1 user resp c rest

/-- Go `signResponse` handler, returning the HTTP status written and the
resulting store.  `decodeOk` models whether the request body parsed as a
`u2f.SignResponse`. -/
def signResponseHandler (verify : Registration → SignResponse → Challenge → Bool)
    (decodeOk : Bool) (user : String) (resp : SignResponse) (σ : Store) :
    Nat × Store :=
  if decodeOk = false then (400, σ)
  else if user = "" then (400, σ)
  else
    match getChallenge σ user with
    | .error _ => (400, σ)
    | .ok (c, σ1) =>
      match getRegistrations σ1 user with
      | .error _ => (400, σ1)
      | .ok regs =>
        if regs.isEmpty then (400, σ1)
        else signLoop verify σ1 user resp c regs

/-- Go `registerResponse` handler, returning the HTTP status written and
the resulting store.  `decodeOk` models whether the body parsed as a
`u2f.RegisterResponse`; `registerVerify` abstracts the external library
call `u2f.Register` (attestation parsing plus signature verification),
yielding the new credential on success and `none` on any verification
failure. -/
def registerResponseHandler (registerVerify : Challenge → Option Registration)
    (decodeOk : Bool) (user : String) (σ : Store) : Nat × Store :=
  if decodeOk = false then (400, σ)
  else if user = "" then (400, σ)
  else
    match getChallenge σ user with
    | .error _ => (400, σ)
    | .ok (c, σ1) =>
      match registerVerify c with
      | none => (500, σ1)
      | some reg =>
        match saveRegistration σ1 user reg with
        | .error _ => (500, σ1)
        | .ok σ2 => (200, σ2)

/-- A status code in the 4xx class. -/
def is4xxStatus (n : Nat) : Bool := decide (400 ≤ n) && decide (n < 500)

/-- URL-safe base64 alphabet used by the u2f client for key handles. -/
def b64urlAlphabet : List Char :=
  ['A', 'B', 'C', 'D', 'E', 'F', 'G', 'H', 'I', 'J', 'K', 'L', 'M',
   'N', 'O', 'P', 'Q', 'R', 'S', 'T', 'U', 'V', 'W', 'X', 'Y', 'Z',
   'a', 'b', 'c', 'd', 'e', 'f', 'g', 'h', 'i', 'j', 'k', 'l', 'm',
   'n', 'o', 'p', 'q', 'r', 's', 't', 'u', 'v', 'w', 'x', 'y', 'z',
   '0', '1', '2', '3', '4', '5', '6', '7', '8', '9', '-', '_']

/-- Unpadded URL-safe base64 string of a byte list: the form in which a
registered key handle appears as the `keyHandle` string of a
`SignResponse`. -/
def b64urlString (bs : List Nat) : String :=
  String.mk ((b64encode bs).map fun n => b64urlAlphabet.getD n '?')

/-! ## Helper lemmas about the operations -/

def okOf {α : Type} : Except String α → Option α
  | .ok a => some a
  | .error _ => none

/-- Decoded registration of one slot, `none` when the slot is free. -/
def slotDecode (b : Bucket) (i : Nat) : Option Registration :=
  match bget b (regSlot i) with
  | some (.reg e) => (okOf (decodeRegSer e)).map regOfSer
  | some _ => none
  | none => none

/-- The registrations stored in a bucket, in slot order. -/
def slotRegs (b : Bucket) : List Registration :=
  slotIdxs.filterMap (slotDecode b)

/-- A slot is readable: free, or holding a registration that unmarshals. -/
def slotOkB (b : Bucket) (i : Nat) : Bool :=
  match bget b (regSlot i) with
  | some (.reg e) => (okOf (decodeRegSer e)).isSome
  | some _ => false
  | none => true

theorem readSlots_eq (b : Bucket) (is : List Nat)
    (h : ∀ i ∈ is, slotOkB b i = true) :
    readSlots b is = .ok (is.filterMap (slotDecode b)) := by
  induction is with
  | nil => rfl
  | cons i is ih =>
    have hi := h i (by simp)
    have hrest : ∀ j ∈ is, slotOkB b j = true := fun j hj => h j (by simp [hj])
    rw [List.filterMap_cons]
    cases hb : bget b (regSlot i) with
    | none =>
      have hd : slotDecode b i = none := by
        unfold slotDecode
        rw [hb]
      simp only [readSlots, hb, hd, ih hrest]
    | some v =>
      cases v with
      | reg e =>
        cases hdec : decodeRegSer e with
        | ok rs =>
          have hd : slotDecode b i = some (regOfSer rs) := by
            simp only [slotDecode, hb, hdec, okOf, Option.map_some']
          simp only [readSlots, hb, hdec, hd, ih hrest, Except.map]
        | error s =>
          simp [slotOkB, hb, hdec, okOf] at hi
      | ch c =>
        simp [slotOkB, hb] at hi
      | ctr bs =>
        simp [slotOkB, hb] at hi

theorem retrieveCounter_of_ctr (σ : Store) (user kh : String) (b : Bucket) (C : Nat)
    (hu : user ≠ "") (hb : sget σ user = some b)
    (hctr : bget b kh = some (.ctr (putUvarint C))) (hC : C < 2 ^ 32) :
    retrieveCounter σ user kh = .ok (C, σ) := by
  simp only [retrieveCounter, if_neg hu, createBucketIfNotExists, hb, hctr,
    readUvarint_putUvarint, Nat.mod_eq_of_lt hC]

theorem saveCounter_ok (σ : Store) (user kh : String) (b : Bucket) (n : Nat)
    (hu : user ≠ "") (hb : sget σ user = some b) :
    saveCounter σ user kh n =
      .ok (sput σ user (bput b kh (.ctr (putUvarint (n % 2 ^ 32))))) := by
  simp only [saveCounter, if_neg hu, createBucketIfNotExists, hb]

theorem retrieveCounter_preserves (σ : Store) (user kh : String) (b : Bucket)
    (p : Nat × Store) (hb : sget σ user = some b)
    (h : retrieveCounter σ user kh = .ok p) : p.2 = σ := by
  by_cases hu : user = ""
  · rw [retrieveCounter, if_pos hu] at h
    exact absurd h (by simp)
  · rw [retrieveCounter, if_neg hu, createBucketIfNotExists, if_neg hu, hb] at h
    cases hx : bget b kh with
    | none =>
      simp only [hx, Except.ok.injEq] at h
      rw [← h]
    | some v =>
      cases v with
      | ch c =>
        simp only [hx, Except.ok.injEq] at h
        rw [← h]
      | reg e =>
        simp only [hx, Except.ok.injEq] at h
        rw [← h]
      | ctr bs =>
        cases hr : readUvarint bs with
        | none => simp [hx, hr] at h
        | some n =>
          simp only [hx, hr, Except.ok.injEq] at h
          rw [← h]

theorem signLoop_all_fail (verify : Registration → SignResponse → Challenge → Bool)
    (σ : Store) (user : String) (resp : SignResponse) (c : Challenge)
    (regs : List Registration) (b : Bucket)
    (hu : user ≠ "") (hb : sget σ user = some b)
    (hall : ∀ reg ∈ regs, verify reg resp c = false) :
    signLoop verify σ user resp c regs = (500, σ) := by
  induction regs with
  | nil => rfl
  | cons reg rest ih =>
    have hv : verify reg resp c = false := hall reg (by simp)
    have hrest : ∀ r ∈ rest, verify r resp c = false := fun r hr => hall r (by simp [hr])
    rw [signLoop]
    cases hrc : retrieveCounter σ user resp.KeyHandle with
    | error e => rfl
    | ok p =>
      have hp : p.2 = σ := retrieveCounter_preserves σ user resp.KeyHandle b p hb hrc
      have hauth : Authenticate verify reg resp c p.1 = none := by
        unfold Authenticate
        rw [hv]
        rfl
      cases p with
      | mk prev σ1 =>
        simp only at hp
        subst hp
        simp only [hauth, ih hrest]

/-! ## C2: single-use challenge -/

/-- C2: a stored challenge is consumed exactly once; after one successful
`getChallenge` (which reads and deletes in one transaction), a second
`getChallenge` for the same user fails with the no-pending-challenge
error. -/
theorem c2_challenge_single_use (σ σ' : Store) (user : String) (c : Challenge)
    (h : getChallenge σ user = .ok (c, σ')) :
    getChallenge σ' user = .error "challenge for user missing" := by
  by_cases hu : user = ""
  · rw [getChallenge, if_pos hu] at h
    exact absurd h (by simp)
  · rw [getChallenge, if_neg hu, createBucketIfNotExists, if_neg hu] at h
    cases hσ : sget σ user with
    | none =>
      rw [hσ] at h
      simp [bget] at h
    | some b =>
      rw [hσ] at h
      simp only at h
      cases hb : bget b "challenge" with
      | none =>
        rw [hb] at h
        exact absurd h (by simp)
      | some v =>
        rw [hb] at h
        cases v with
        | ch c0 =>
          simp only [Except.ok.injEq, Prod.mk.injEq] at h
          obtain ⟨-, hs⟩ := h
          rw [getChallenge, if_neg hu, createBucketIfNotExists, if_neg hu, ← hs,
            sget_sput_self]
          simp only [bget_bdel_self]
        | reg e => exact absurd h (by simp)
        | ctr bs => exact absurd h (by simp)

theorem c2_challenge_single_use_witness :
    getChallenge [("u", ([] : Bucket))] "u" = .error "challenge for user missing" :=
  c2_challenge_single_use [("u", [("challenge", .ch ⟨[1], 0, "a", ["a"]⟩)])]
    [("u", [])] "u" ⟨[1], 0, "a", ["a"]⟩ rfl

/-! ## C3: slot capacity -/

/-- C3: for a user whose ten registration slots are all occupied, saving an
eleventh credential fails with the distinguishable capacity error, and the
rolled-back transaction leaves the store — in particular the ten stored
credentials — exactly as before. -/
theorem c3_slot_capacity (σ : Store) (user : String) (reg : Registration) (b : Bucket)
    (hu : user ≠ "") (hb : sget σ user = some b)
    (hfull : ∀ i ∈ slotIdxs, (bget b (regSlot i)).isSome = true) :
    saveRegistration σ user reg = .error "number of slots exceeded" ∧
    postStore (saveRegistration σ user reg) σ = σ ∧
    getRegistrations (postStore (saveRegistration σ user reg) σ) user =
      getRegistrations σ user := by
  have hfree : firstFreeSlot b = none := by
    apply List.find?_eq_none.mpr
    intro i hi
    cases hx : bget b (regSlot i) with
    | none =>
      have := hfull i hi
      rw [hx] at this
      simp at this
    | some v => simp [hx]
  have h1 : saveRegistration σ user reg = .error "number of slots exceeded" := by
    simp only [saveRegistration, if_neg hu, createBucketIfNotExists, hb, hfree]
  refine ⟨h1, ?_, ?_⟩
  · rw [h1]
    rfl
  · rw [h1]
    rfl

/-! ## C9: reading registrations never fails for unknown users -/

/-- C9: `getRegistrations` succeeds with the empty sequence for a user with
no stored data, and for a user whose bucket is readable it returns exactly
the stored credentials in slot order. -/
theorem c9_getRegistrations_total (σ1 σ2 : Store) (user : String) (b : Bucket)
    (h1 : sget σ1 user = none) (h2 : sget σ2 user = some b)
    (hwf : ∀ i ∈ slotIdxs, slotOkB b i = true) :
    getRegistrations σ1 user = .ok [] ∧
    getRegistrations σ2 user = .ok (slotRegs b) := by
  constructor
  · simp only [getRegistrations, h1]
  · simp only [getRegistrations, h2]
    exact readSlots_eq b slotIdxs hwf

/-! ## C10: uvarint counter round-trip -/

/-- C10: for every non-empty user, every key handle and every `uint32`
counter value, `saveCounter` followed by `retrieveCounter` yields exactly
the saved value: the uvarint persistence encoding is lossless on 32-bit
values. -/
theorem c10_counter_roundtrip (σ : Store) (user kh : String) (c : Nat)
    (hu : user ≠ "") (hc : c < 2 ^ 32) :
    ∃ σ', saveCounter σ user kh c = .ok σ' ∧
      retrieveCounter σ' user kh = .ok (c, σ') := by
  have hmod : c % 2 ^ 32 = c := Nat.mod_eq_of_lt hc
  cases hσ : sget σ user with
  | some b =>
    refine ⟨sput σ user (bput b kh (.ctr (putUvarint c))), ?_, ?_⟩
    · rw [saveCounter_ok σ user kh b c hu hσ, hmod]
    · exact retrieveCounter_of_ctr _ user kh _ c hu (sget_sput_self σ user _)
        (bget_bput_self b kh _) hc
  | none =>
    refine ⟨sput (sput σ user []) user (bput [] kh (.ctr (putUvarint c))), ?_, ?_⟩
    · simp only [saveCounter, if_neg hu, createBucketIfNotExists, hσ, hmod]
    · exact retrieveCounter_of_ctr _ user kh _ c hu (sget_sput_self _ user _)
        (bget_bput_self [] kh _) hc

/-! ## C1: counter monotonicity -/

theorem signLoop_accepts (verify : Registration → SignResponse → Challenge → Bool)
    (σ : Store) (user : String) (resp : SignResponse) (c : Challenge)
    (regs : List Registration) (b : Bucket) (C : Nat)
    (hu : user ≠ "") (hb : sget σ user = some b)
    (hctr : bget b resp.KeyHandle = some (.ctr (putUvarint C)))
    (hC : C < 2 ^ 32) (hV : resp.counter < 2 ^ 32) (hlt : C < resp.counter)
    (hver : ∃ reg ∈ regs, verify reg resp c = true) :
    signLoop verify σ user resp c regs =
      (200, sput σ user (bput b resp.KeyHandle (.ctr (putUvarint resp.counter)))) := by
  induction regs with
  | nil =>
    obtain ⟨r, hr, -⟩ := hver
    simp at hr
  | cons reg rest ih =>
    rw [signLoop]
    simp only [retrieveCounter_of_ctr σ user resp.KeyHandle b C hu hb hctr hC]
    cases hv : verify reg resp c with
    | true =>
      have hauth : Authenticate verify reg resp c C = some resp.counter := by
        unfold Authenticate
        rw [hv, Nat.mod_eq_of_lt hV]
        simp [hlt]
      simp only [hauth, saveCounter_ok σ user resp.KeyHandle b resp.counter hu hb,
        Nat.mod_eq_of_lt hV]
    | false =>
      have hauth : Authenticate verify reg resp c C = none := by
        unfold Authenticate
        rw [hv]
        rfl
      have hver' : ∃ r ∈ rest, verify r resp c = true := by
        obtain ⟨r, hr, hvr⟩ := hver
        rcases List.mem_cons.mp hr with hr0 | hr1
        · rw [hr0] at hvr
          rw [hvr] at hv
          exact absurd hv (by simp)
        · exact ⟨r, hr1, hvr⟩
      simp only [hauth, ih hver']

theorem signLoop_rejects (verify : Registration → SignResponse → Challenge → Bool)
    (σ : Store) (user : String) (resp : SignResponse) (c : Challenge)
    (regs : List Registration) (b : Bucket) (C : Nat)
    (hu : user ≠ "") (hb : sget σ user = some b)
    (hctr : bget b resp.KeyHandle = some (.ctr (putUvarint C)))
    (hC : C < 2 ^ 32) (hV : resp.counter < 2 ^ 32) (hle : resp.counter ≤ C) :
    signLoop verify σ user resp c regs = (500, σ) := by
  induction regs with
  | nil => rfl
  | cons reg rest ih =>
    rw [signLoop]
    simp only [retrieveCounter_of_ctr σ user resp.KeyHandle b C hu hb hctr hC]
    have hauth : Authenticate verify reg resp c C = none := by
      unfold Authenticate
      rw [Nat.mod_eq_of_lt hV]
      have : decide (C < resp.counter) = false := by
        apply decide_eq_false
        omega
      simp [this]
    simp only [hauth, ih]

/-- C1: with a stored counter `C` for the response's key handle and an
assertion reporting counter value `V` whose signature verifies against one
of the stored credentials, the assertion is accepted (HTTP 200) iff
`V > C`; on acceptance the stored counter for that (user, key handle)
becomes exactly `V`, and on `V ≤ C` the assertion is rejected and the
store is left untouched. -/
theorem c1_counter_monotonicity
    (verify : Registration → SignResponse → Challenge → Bool)
    (σ : Store) (user : String) (resp : SignResponse) (c : Challenge)
    (regs : List Registration) (b : Bucket) (C : Nat)
    (hu : user ≠ "") (hb : sget σ user = some b)
    (hctr : bget b resp.KeyHandle = some (.ctr (putUvarint C)))
    (hC : C < 2 ^ 32) (hV : resp.counter < 2 ^ 32)
    (hver : ∃ reg ∈ regs, verify reg resp c = true) :
    (C < resp.counter →
      signLoop verify σ user resp c regs =
        (200, sput σ user (bput b resp.KeyHandle (.ctr (putUvarint resp.counter)))) ∧
      lookupKey (sput σ user (bput b resp.KeyHandle (.ctr (putUvarint resp.counter))))
        user resp.KeyHandle = some (.ctr (putUvarint resp.counter))) ∧
    (resp.counter ≤ C → signLoop verify σ user resp c regs = (500, σ)) := by
  constructor
  · intro hlt
    constructor
    · exact signLoop_accepts verify σ user resp c regs b C hu hb hctr hC hV hlt hver
    · simp only [lookupKey, sget_sput_self, bget_bput_self]
  · intro hle
    exact signLoop_rejects verify σ user resp c regs b C hu hb hctr hC hV hle

theorem c1_counter_monotonicity_witness :
    (3 < 5 →
      signLoop (fun _ _ _ => true) [("u", [("kh", .ctr (putUvarint 3))])] "u"
          ⟨"kh", 5⟩ ⟨[2], 0, "a", ["a"]⟩ [⟨[], [1], 0, 0, none⟩] =
        (200, sput [("u", [("kh", .ctr (putUvarint 3))])] "u"
          (bput [("kh", .ctr (putUvarint 3))] "kh" (.ctr (putUvarint 5)))) ∧
      lookupKey (sput [("u", [("kh", .ctr (putUvarint 3))])] "u"
          (bput [("kh", .ctr (putUvarint 3))] "kh" (.ctr (putUvarint 5))))
        "u" "kh" = some (.ctr (putUvarint 5))) ∧
    (5 ≤ 3 →
      signLoop (fun _ _ _ => true) [("u", [("kh", .ctr (putUvarint 3))])] "u"
          ⟨"kh", 5⟩ ⟨[2], 0, "a", ["a"]⟩ [⟨[], [1], 0, 0, none⟩] =
        (500, [("u", [("kh", .ctr (putUvarint 3))])])) :=
  c1_counter_monotonicity (fun _ _ _ => true)
    [("u", [("kh", .ctr (putUvarint 3))])] "u" ⟨"kh", 5⟩ ⟨[2], 0, "a", ["a"]⟩
    [⟨[], [1], 0, 0, none⟩] [("kh", .ctr (putUvarint 3))] 3
    (by decide) rfl rfl (by decide) (by decide)
    ⟨⟨[], [1], 0, 0, none⟩, by simp, rfl⟩

/-! ## C4: credential selection by key handle (refuted) -/

/-- C4 counterexample: the sign loop performs no key-handle selection.
Here the single stored credential's key handle is `[1, 2, 3]`, whose
URL-safe base64 form is "AQID", while the response carries the key-handle
string "unknown" — no stored credential has the response's key handle —
yet the assertion is accepted (status 200, counter saved under the alien
key-handle string) instead of being rejected with an unknown-key-handle
error. -/
theorem c4_counterexample :
    signLoop (fun _ _ _ => true) [("u", [])] "u" ⟨"unknown", 5⟩
        ⟨[9], 0, "a", ["a"]⟩ [⟨[], [1, 2, 3], 0, 0, none⟩] =
      (200, [("u", [("unknown", StoredVal.ctr [5])])]) ∧
    b64urlString [1, 2, 3] ≠ "unknown" := by
  constructor
  · rfl
  · decide

/-- C4 amended: `signResponse` tries `Authenticate` on every stored
credential in slot order with no key-handle pre-selection; when no
credential's verification succeeds — in particular when the response's key
handle corresponds to no stored credential — the rejection is the generic
"error verifying response" failure with status 500, not a distinguishable
unknown-key-handle error, and the store is left unchanged. -/
theorem c4_amended_bruteforce_loop
    (verify : Registration → SignResponse → Challenge → Bool)
    (σ : Store) (user : String) (resp : SignResponse) (c : Challenge)
    (regs : List Registration) (b : Bucket)
    (hu : user ≠ "") (hb : sget σ user = some b)
    (hall : ∀ reg ∈ regs, verify reg resp c = false) :
    signLoop verify σ user resp c regs = (500, σ) :=
  signLoop_all_fail verify σ user resp c regs b hu hb hall

theorem c4_amended_bruteforce_loop_witness :
    signLoop (fun _ _ _ => false) [("u", [])] "u" ⟨"unknown", 5⟩
        ⟨[9], 0, "a", ["a"]⟩ [⟨[], [1, 2, 3], 0, 0, none⟩] =
      (500, [("u", [])]) :=
  c4_amended_bruteforce_loop (fun _ _ _ => false) [("u", [])] "u"
    ⟨"unknown", 5⟩ ⟨[9], 0, "a", ["a"]⟩ [⟨[], [1, 2, 3], 0, 0, none⟩] []
    (by decide) rfl (fun reg _ => rfl)

/-! ## C5: disjointness of the per-user key families (refuted) -/

/-- C5 counterexample: counter entries live in the same flat per-user key
space as the "challenge" entry, keyed by the raw key-handle string, so
`saveCounter` with the key handle "challenge" overwrites the pending
challenge: afterwards the challenge entry holds uvarint counter bytes and
`getChallenge` fails to unmarshal them. -/
theorem c5_counterexample :
    saveCounter [("u", [("challenge", StoredVal.ch ⟨[7], 0, "a", ["a"]⟩)])]
        "u" "challenge" 5 =
      .ok [("u", [("challenge", StoredVal.ctr [5])])] ∧
    getChallenge [("u", [("challenge", StoredVal.ctr [5])])] "u" =
      .error "json unmarshal" := by
  constructor
  · rfl
  · rfl

theorem lookupKey_saveCounter (σ σ' : Store) (user kh q : String) (n : Nat)
    (hq : q ≠ kh) (h : saveCounter σ user kh n = .ok σ') :
    lookupKey σ' user q = lookupKey σ user q := by
  by_cases hu : user = ""
  · rw [saveCounter, if_pos hu] at h
    exact absurd h (by simp)
  · rw [saveCounter, if_neg hu, createBucketIfNotExists, if_neg hu] at h
    cases hσ : sget σ user with
    | some b =>
      simp only [hσ, Except.ok.injEq] at h
      subst h
      simp only [lookupKey, sget_sput_self, hσ, bget_bput_ne _ _ _ _ hq]
    | none =>
      simp only [hσ, Except.ok.injEq] at h
      subst h
      simp only [lookupKey, sget_sput_self, hσ, bget_bput_ne _ _ _ _ hq, bget]
      exact if_neg (fun hh => hq hh.symm)

theorem lookupKey_setChallenge (σ σ' : Store) (user q : String) (c : Challenge)
    (hq : q ≠ "challenge") (h : setChallenge σ user c = .ok σ') :
    lookupKey σ' user q = lookupKey σ user q := by
  rw [setChallenge, createBucketIfNotExists] at h
  by_cases hu : user = ""
  · rw [if_pos hu] at h
    exact absurd h (by simp)
  · rw [if_neg hu] at h
    cases hσ : sget σ user with
    | some b =>
      simp only [hσ, Except.ok.injEq] at h
      subst h
      simp only [lookupKey, sget_sput_self, hσ, bget_bput_ne _ _ _ _ hq]
    | none =>
      simp only [hσ, Except.ok.injEq] at h
      subst h
      simp only [lookupKey, sget_sput_self, hσ, bget_bput_ne _ _ _ _ hq, bget]
      exact if_neg (fun hh => hq hh.symm)

theorem lookupKey_saveRegistration (σ σ' : Store) (user q : String)
    (reg : Registration) (hq : ∀ i ∈ slotIdxs, q ≠ regSlot i)
    (h : saveRegistration σ user reg = .ok σ') :
    lookupKey σ' user q = lookupKey σ user q := by
  by_cases hu : user = ""
  · rw [saveRegistration, if_pos hu] at h
    exact absurd h (by simp)
  · rw [saveRegistration, if_neg hu, createBucketIfNotExists, if_neg hu] at h
    cases hσ : sget σ user with
    | some b =>
      cases hf : firstFreeSlot b with
      | none => simp [hσ, hf] at h
      | some i =>
        have hi : i ∈ slotIdxs := List.mem_of_find?_eq_some hf
        simp only [hσ, hf, Except.ok.injEq] at h
        subst h
        simp only [lookupKey, sget_sput_self, hσ, bget_bput_ne _ _ _ _ (hq i hi)]
    | none =>
      cases hf : firstFreeSlot ([] : Bucket) with
      | none => simp [hσ, hf] at h
      | some i =>
        have hi : i ∈ slotIdxs := List.mem_of_find?_eq_some hf
        simp only [hσ, hf, Except.ok.injEq] at h
        subst h
        simp only [lookupKey, sget_sput_self, hσ, bget_bput_ne _ _ _ _ (hq i hi), bget]
        exact if_neg (fun hh => hq i hi hh.symm)

/-- C5 amended: the per-user key space is flat — counter entries are keyed
by the raw key-handle string beside "challenge" and "reg-0".."reg-9", and
a key handle equal to one of those reserved names collides with it (see
the counterexample).  For every key handle distinct from "challenge" and
from every registration slot name, the frame property holds: `saveCounter`
preserves the challenge entry and every registration slot, and
`setChallenge`/`saveRegistration` preserve the counter entry. -/
theorem c5_amended_key_space (σ σ1 σ2 σ3 : Store) (user kh : String) (n : Nat)
    (c : Challenge) (reg : Registration)
    (hkc : kh ≠ "challenge") (hks : ∀ i ∈ slotIdxs, kh ≠ regSlot i)
    (h1 : saveCounter σ user kh n = .ok σ1)
    (h2 : setChallenge σ user c = .ok σ2)
    (h3 : saveRegistration σ user reg = .ok σ3) :
    lookupKey σ1 user "challenge" = lookupKey σ user "challenge" ∧
    (∀ i ∈ slotIdxs, lookupKey σ1 user (regSlot i) = lookupKey σ user (regSlot i)) ∧
    lookupKey σ2 user kh = lookupKey σ user kh ∧
    lookupKey σ3 user kh = lookupKey σ user kh := by
  refine ⟨?_, ?_, ?_, ?_⟩
  · exact lookupKey_saveCounter σ σ1 user kh "challenge" n
      (fun hh => hkc hh.symm) h1
  · intro i hi
    exact lookupKey_saveCounter σ σ1 user kh (regSlot i) n
      (fun hh => hks i hi hh.symm) h1
  · exact lookupKey_setChallenge σ σ2 user kh c hkc h2
  · exact lookupKey_saveRegistration σ σ3 user kh reg hks h3

theorem c5_amended_key_space_witness :
    lookupKey [("u", [("challenge", StoredVal.ch ⟨[7], 0, "a", ["a"]⟩), ("kh", StoredVal.ctr [1])])]
        "u" "challenge" =
      lookupKey [("u", [("challenge", StoredVal.ch ⟨[7], 0, "a", ["a"]⟩)])] "u" "challenge" ∧
    (∀ i ∈ slotIdxs,
      lookupKey [("u", [("challenge", StoredVal.ch ⟨[7], 0, "a", ["a"]⟩), ("kh", StoredVal.ctr [1])])]
          "u" (regSlot i) =
        lookupKey [("u", [("challenge", StoredVal.ch ⟨[7], 0, "a", ["a"]⟩)])] "u" (regSlot i)) ∧
    lookupKey [("u", [("challenge", StoredVal.ch ⟨[3], 1, "b", ["b"]⟩)])] "u" "kh" =
      lookupKey [("u", [("challenge", StoredVal.ch ⟨[7], 0, "a", ["a"]⟩)])] "u" "kh" ∧
    lookupKey [("u", [("challenge", StoredVal.ch ⟨[7], 0, "a", ["a"]⟩),
        ("reg-0", StoredVal.reg (encodeRegSer (serOfReg ⟨[], [], 0, 0, none⟩)))])] "u" "kh" =
      lookupKey [("u", [("challenge", StoredVal.ch ⟨[7], 0, "a", ["a"]⟩)])] "u" "kh" :=
  c5_amended_key_space [("u", [("challenge", StoredVal.ch ⟨[7], 0, "a", ["a"]⟩)])]
    [("u", [("challenge", StoredVal.ch ⟨[7], 0, "a", ["a"]⟩), ("kh", StoredVal.ctr [1])])]
    [("u", [("challenge", StoredVal.ch ⟨[3], 1, "b", ["b"]⟩)])]
    [("u", [("challenge", StoredVal.ch ⟨[7], 0, "a", ["a"]⟩),
      ("reg-0", StoredVal.reg (encodeRegSer (serOfReg ⟨[], [], 0, 0, none⟩)))])]
    "u" "kh" 1 ⟨[3], 1, "b", ["b"]⟩ ⟨[], [], 0, 0, none⟩
    (by decide) (by decide) rfl rfl rfl

/-! ## Inversion lemmas for successful mutations -/

theorem setChallenge_ok_inv (σ σ' : Store) (user : String) (c : Challenge)
    (h : setChallenge σ user c = .ok σ') :
    (∃ b, sget σ user = some b ∧ σ' = sput σ user (bput b "challenge" (.ch c))) ∨
    (sget σ user = none ∧
      σ' = sput (sput σ user []) user (bput [] "challenge" (.ch c))) := by
  rw [setChallenge, createBucketIfNotExists] at h
  by_cases hu : user = ""
  · rw [if_pos hu] at h
    exact absurd h (by simp)
  · rw [if_neg hu] at h
    cases hσ : sget σ user with
    | some b =>
      simp only [hσ, Except.ok.injEq] at h
      exact Or.inl ⟨b, rfl, h.symm⟩
    | none =>
      simp only [hσ, Except.ok.injEq] at h
      exact Or.inr ⟨rfl, h.symm⟩

theorem saveCounter_ok_inv (σ σ' : Store) (user kh : String) (n : Nat)
    (h : saveCounter σ user kh n = .ok σ') :
    (∃ b, sget σ user = some b ∧
      σ' = sput σ user (bput b kh (.ctr (putUvarint (n % 2 ^ 32))))) ∨
    (sget σ user = none ∧
      σ' = sput (sput σ user []) user (bput [] kh (.ctr (putUvarint (n % 2 ^ 32))))) := by
  by_cases hu : user = ""
  · rw [saveCounter, if_pos hu] at h
    exact absurd h (by simp)
  · rw [saveCounter, if_neg hu, createBucketIfNotExists, if_neg hu] at h
    cases hσ : sget σ user with
    | some b =>
      simp only [hσ, Except.ok.injEq] at h
      exact Or.inl ⟨b, rfl, h.symm⟩
    | none =>
      simp only [hσ, Except.ok.injEq] at h
      exact Or.inr ⟨rfl, h.symm⟩

theorem saveRegistration_ok_inv (σ σ' : Store) (user : String) (reg : Registration)
    (h : saveRegistration σ user reg = .ok σ') :
    (∃ b i, sget σ user = some b ∧ i ∈ slotIdxs ∧
      σ' = sput σ user (bput b (regSlot i) (.reg (encodeRegSer (serOfReg reg))))) ∨
    (sget σ user = none ∧
      σ' = sput (sput σ user []) user
        (bput [] (regSlot 0) (.reg (encodeRegSer (serOfReg reg))))) := by
  by_cases hu : user = ""
  · rw [saveRegistration, if_pos hu] at h
    exact absurd h (by simp)
  · rw [saveRegistration, if_neg hu, createBucketIfNotExists, if_neg hu] at h
    cases hσ : sget σ user with
    | some b =>
      cases hf : firstFreeSlot b with
      | none => simp [hσ, hf] at h
      | some i =>
        simp only [hσ, hf, Except.ok.injEq] at h
        exact Or.inl ⟨b, i, rfl, List.mem_of_find?_eq_some hf, h.symm⟩
    | none =>
      have hf : firstFreeSlot ([] : Bucket) = some 0 := rfl
      simp only [hσ, hf, Except.ok.injEq] at h
      exact Or.inr ⟨rfl, h.symm⟩

theorem getChallenge_ok_inv (σ σ' : Store) (user : String) (c : Challenge)
    (h : getChallenge σ user = .ok (c, σ')) :
    ∃ b, sget σ user = some b ∧ bget b "challenge" = some (.ch c) ∧
      σ' = sput σ user (bdel b "challenge") := by
  by_cases hu : user = ""
  · rw [getChallenge, if_pos hu] at h
    exact absurd h (by simp)
  · rw [getChallenge, if_neg hu, createBucketIfNotExists, if_neg hu] at h
    cases hσ : sget σ user with
    | none => simp [hσ, bget] at h
    | some b =>
      cases hb : bget b "challenge" with
      | none => simp [hσ, hb] at h
      | some v =>
        cases v with
        | ch c0 =>
          simp only [hσ, hb, Except.ok.injEq, Prod.mk.injEq] at h
          obtain ⟨hc, hs⟩ := h
          refine ⟨b, rfl, ?_, hs.symm⟩
          rw [hb, hc]
        | reg e => simp [hσ, hb] at h
        | ctr bs => simp [hσ, hb] at h

theorem retrieveCounter_ok_inv (σ : Store) (user kh : String) (p : Nat × Store)
    (h : retrieveCounter σ user kh = .ok p) :
    p.2 = σ ∨ (sget σ user = none ∧ p.2 = sput σ user []) := by
  by_cases hu : user = ""
  · rw [retrieveCounter, if_pos hu] at h
    exact absurd h (by simp)
  · rw [retrieveCounter, if_neg hu, createBucketIfNotExists, if_neg hu] at h
    cases hσ : sget σ user with
    | some b =>
      left
      cases hx : bget b kh with
      | none =>
        simp only [hσ, hx, Except.ok.injEq] at h
        rw [← h]
      | some v =>
        cases v with
        | ch c =>
          simp only [hσ, hx, Except.ok.injEq] at h
          rw [← h]
        | reg e =>
          simp only [hσ, hx, Except.ok.injEq] at h
          rw [← h]
        | ctr bs =>
          cases hr : readUvarint bs with
          | none => simp [hσ, hx, hr] at h
          | some n =>
            simp only [hσ, hx, hr, Except.ok.injEq] at h
            rw [← h]
    | none =>
      right
      refine ⟨rfl, ?_⟩
      have hx : bget ([] : Bucket) kh = none := rfl
      simp only [hσ, hx, Except.ok.injEq] at h
      rw [← h]

/-! ## C7: at most one pending challenge per user -/

/-- Number of "challenge" entries in a bucket. -/
def chalCount (b : Bucket) : Nat :=
  b.countP fun kv => kv.1 == "challenge"

/-- Every user bucket holds at most one pending challenge entry. -/
def atMostOneChallenge (σ : Store) : Prop :=
  ∀ e ∈ σ, chalCount e.2 ≤ 1

instance (σ : Store) : Decidable (atMostOneChallenge σ) := by
  unfold atMostOneChallenge
  infer_instance

theorem chalCount_bput_ne (b : Bucket) (k : String) (v : StoredVal)
    (hk : k ≠ "challenge") : chalCount (bput b k v) = chalCount b := by
  have hbeq : (k == "challenge") = false := beq_eq_false_iff_ne.mpr hk
  induction b with
  | nil => simp [bput, chalCount, List.countP_cons, hbeq]
  | cons hd tl ih =>
    by_cases hkk : hd.1 = k
    · have hbeq2 : (hd.1 == "challenge") = false := by
        rw [hkk]
        exact hbeq
      rw [bput, if_pos hkk]
      simp [chalCount, List.countP_cons, hbeq, hbeq2]
    · rw [bput, if_neg hkk]
      simp only [chalCount, List.countP_cons] at ih ⊢
      rw [ih]

theorem chalCount_bput (b : Bucket) (k : String) (v : StoredVal)
    (h : chalCount b ≤ 1) : chalCount (bput b k v) ≤ 1 := by
  by_cases hk : k = "challenge"
  · subst hk
    induction b with
    | nil => simp [bput, chalCount, List.countP_cons]
    | cons hd tl ih =>
      by_cases hkk : hd.1 = "challenge"
      · have hbeq : (hd.1 == "challenge") = true := beq_iff_eq.mpr hkk
        rw [bput, if_pos hkk]
        simp only [chalCount, List.countP_cons, hbeq, beq_self_eq_true,
          eq_self_iff_true, if_true] at h ⊢
        omega
      · have hbeq : (hd.1 == "challenge") = false := beq_eq_false_iff_ne.mpr hkk
        rw [bput, if_neg hkk]
        simp only [chalCount, List.countP_cons, hbeq, Bool.false_eq_true, if_false,
          Nat.add_zero] at h ⊢
        exact ih h
  · rw [chalCount_bput_ne b k v hk]
    exact h

theorem chalCount_bdel_le (b : Bucket) (k : String) :
    chalCount (bdel b k) ≤ chalCount b := by
  induction b with
  | nil => simp [bdel]
  | cons hd tl ih =>
    by_cases hk : hd.1 = k
    · rw [bdel, if_pos hk]
      refine le_trans ih ?_
      simp only [chalCount, List.countP_cons]
      exact Nat.le_add_right _ _
    · rw [bdel, if_neg hk]
      simp only [chalCount, List.countP_cons] at ih ⊢
      omega

theorem mem_sput (σ : Store) (u : String) (nb : Bucket) (e : String × Bucket)
    (h : e ∈ sput σ u nb) : e = (u, nb) ∨ e ∈ σ := by
  induction σ with
  | nil =>
    simp [sput] at h
    exact Or.inl h
  | cons hd tl ih =>
    by_cases hu : hd.1 = u
    · rw [sput, if_pos hu] at h
      rcases List.mem_cons.mp h with h1 | h2
      · exact Or.inl h1
      · exact Or.inr (List.mem_cons_of_mem _ h2)
    · rw [sput, if_neg hu] at h
      rcases List.mem_cons.mp h with h1 | h2
      · exact Or.inr (h1 ▸ List.mem_cons_self _ _)
      · rcases ih h2 with h3 | h4
        · exact Or.inl h3
        · exact Or.inr (List.mem_cons_of_mem _ h4)

theorem atMostOne_sput (σ : Store) (u : String) (nb : Bucket)
    (hσ : atMostOneChallenge σ) (hnb : chalCount nb ≤ 1) :
    atMostOneChallenge (sput σ u nb) := by
  intro e he
  rcases mem_sput σ u nb e he with h1 | h2
  · rw [h1]
    exact hnb
  · exact hσ e h2

theorem chalCount_of_sget (σ : Store) (u : String) (b : Bucket)
    (hσ : atMostOneChallenge σ) (h : sget σ u = some b) : chalCount b ≤ 1 :=
  hσ (u, b) (sget_mem σ u b h)

theorem regSlot_ne_challenge : ∀ i ∈ slotIdxs, regSlot i ≠ "challenge" := by
  decide

theorem atMostOne_setChallenge (σ σ' : Store) (user : String) (c : Challenge)
    (hinv : atMostOneChallenge σ) (h : setChallenge σ user c = .ok σ') :
    atMostOneChallenge σ' := by
  rcases setChallenge_ok_inv σ σ' user c h with ⟨b, hσ, rfl⟩ | ⟨hσ, rfl⟩
  · exact atMostOne_sput σ user _ hinv
      (chalCount_bput b "challenge" _ (chalCount_of_sget σ user b hinv hσ))
  · exact atMostOne_sput _ user _
      (atMostOne_sput σ user [] hinv (by simp [chalCount]))
      (chalCount_bput [] "challenge" _ (by simp [chalCount]))

theorem atMostOne_getChallenge (σ : Store) (user : String)
    (hinv : atMostOneChallenge σ) :
    atMostOneChallenge (postPair (getChallenge σ user) σ) := by
  cases hres : getChallenge σ user with
  | error e => exact hinv
  | ok p =>
    obtain ⟨c', σ'⟩ := p
    obtain ⟨b, hσ, hb, hs⟩ := getChallenge_ok_inv σ σ' user c' hres
    have heq : postPair (Except.ok (c', σ')) σ = σ' := rfl
    rw [heq, hs]
    exact atMostOne_sput σ user _ hinv
      (le_trans (chalCount_bdel_le b "challenge")
        (chalCount_of_sget σ user b hinv hσ))

theorem atMostOne_saveRegistration (σ : Store) (user : String) (reg : Registration)
    (hinv : atMostOneChallenge σ) :
    atMostOneChallenge (postStore (saveRegistration σ user reg) σ) := by
  cases hres : saveRegistration σ user reg with
  | error e => exact hinv
  | ok σ' =>
    have heq : postStore (Except.ok σ') σ = σ' := rfl
    rw [heq]
    rcases saveRegistration_ok_inv σ σ' user reg hres with ⟨b, i, hσ, hi, rfl⟩ | ⟨hσ, rfl⟩
    · refine atMostOne_sput σ user _ hinv ?_
      rw [chalCount_bput_ne b (regSlot i) _ (regSlot_ne_challenge i hi)]
      exact chalCount_of_sget σ user b hinv hσ
    · refine atMostOne_sput _ user _
        (atMostOne_sput σ user [] hinv (by simp [chalCount])) ?_
      rw [chalCount_bput_ne [] (regSlot 0) _ (regSlot_ne_challenge 0 (by decide))]
      simp [chalCount]

theorem atMostOne_saveCounter (σ : Store) (user kh : String) (n : Nat)
    (hinv : atMostOneChallenge σ) :
    atMostOneChallenge (postStore (saveCounter σ user kh n) σ) := by
  cases hres : saveCounter σ user kh n with
  | error e => exact hinv
  | ok σ' =>
    have heq : postStore (Except.ok σ') σ = σ' := rfl
    rw [heq]
    rcases saveCounter_ok_inv σ σ' user kh n hres with ⟨b, hσ, rfl⟩ | ⟨hσ, rfl⟩
    · exact atMostOne_sput σ user _ hinv
        (chalCount_bput b kh _ (chalCount_of_sget σ user b hinv hσ))
    · exact atMostOne_sput _ user _
        (atMostOne_sput σ user [] hinv (by simp [chalCount]))
        (chalCount_bput [] kh _ (by simp [chalCount]))

theorem atMostOne_retrieveCounter (σ : Store) (user kh : String)
    (hinv : atMostOneChallenge σ) :
    atMostOneChallenge (postPair (retrieveCounter σ user kh) σ) := by
  cases hres : retrieveCounter σ user kh with
  | error e => exact hinv
  | ok p =>
    have heq : postPair (Except.ok p) σ = p.2 := rfl
    rw [heq]
    rcases retrieveCounter_ok_inv σ user kh p hres with h1 | ⟨hσ, h2⟩
    · rw [h1]
      exact hinv
    · rw [h2]
      exact atMostOne_sput σ user [] hinv (by simp [chalCount])

/-- C7: a new challenge stored via `setChallenge` replaces any unconsumed
prior challenge for that user (afterwards the challenge entry holds
exactly the new challenge), and the at-most-one-pending-challenge-per-user
invariant is preserved by every store operation. -/
theorem c7_single_pending_challenge (σ σ' : Store) (user kh : String)
    (c : Challenge) (reg : Registration) (n : Nat)
    (hinv : atMostOneChallenge σ)
    (hset : setChallenge σ user c = .ok σ') :
    lookupKey σ' user "challenge" = some (.ch c) ∧
    atMostOneChallenge σ' ∧
    atMostOneChallenge (postPair (getChallenge σ user) σ) ∧
    atMostOneChallenge (postStore (saveRegistration σ user reg) σ) ∧
    atMostOneChallenge (postStore (saveCounter σ user kh n) σ) ∧
    atMostOneChallenge (postPair (retrieveCounter σ user kh) σ) := by
  refine ⟨?_, atMostOne_setChallenge σ σ' user c hinv hset,
    atMostOne_getChallenge σ user hinv,
    atMostOne_saveRegistration σ user reg hinv,
    atMostOne_saveCounter σ user kh n hinv,
    atMostOne_retrieveCounter σ user kh hinv⟩
  rcases setChallenge_ok_inv σ σ' user c hset with ⟨b, hσ, rfl⟩ | ⟨hσ, rfl⟩
  · simp only [lookupKey, sget_sput_self, bget_bput_self]
  · simp only [lookupKey, sget_sput_self, bget_bput_self]

theorem c7_single_pending_challenge_witness :
    lookupKey [("u", [("challenge", StoredVal.ch ⟨[2], 1, "b", ["b"]⟩)])]
        "u" "challenge" = some (.ch ⟨[2], 1, "b", ["b"]⟩) ∧
    atMostOneChallenge [("u", [("challenge", StoredVal.ch ⟨[2], 1, "b", ["b"]⟩)])] ∧
    atMostOneChallenge (postPair
      (getChallenge [("u", [("challenge", StoredVal.ch ⟨[1], 0, "a", ["a"]⟩)])] "u")
      [("u", [("challenge", StoredVal.ch ⟨[1], 0, "a", ["a"]⟩)])]) ∧
    atMostOneChallenge (postStore
      (saveRegistration [("u", [("challenge", StoredVal.ch ⟨[1], 0, "a", ["a"]⟩)])] "u"
        ⟨[], [], 0, 0, none⟩)
      [("u", [("challenge", StoredVal.ch ⟨[1], 0, "a", ["a"]⟩)])]) ∧
    atMostOneChallenge (postStore
      (saveCounter [("u", [("challenge", StoredVal.ch ⟨[1], 0, "a", ["a"]⟩)])] "u" "kh" 4)
      [("u", [("challenge", StoredVal.ch ⟨[1], 0, "a", ["a"]⟩)])]) ∧
    atMostOneChallenge (postPair
      (retrieveCounter [("u", [("challenge", StoredVal.ch ⟨[1], 0, "a", ["a"]⟩)])] "u" "kh")
      [("u", [("challenge", StoredVal.ch ⟨[1], 0, "a", ["a"]⟩)])]) :=
  c7_single_pending_challenge
    [("u", [("challenge", StoredVal.ch ⟨[1], 0, "a", ["a"]⟩)])]
    [("u", [("challenge", StoredVal.ch ⟨[2], 1, "b", ["b"]⟩)])]
    "u" "kh" ⟨[2], 1, "b", ["b"]⟩ ⟨[], [], 0, 0, none⟩ 4
    (by decide) rfl

/-! ## C8: error-to-HTTP-status mapping (refuted) -/

/-- C8 counterexample: a registration verification failure — a protocol or
cryptographic error, not a storage failure — is reported with status 500,
which is not in the 4xx class, contradicting the claim that protocol and
input errors map to 4xx and only storage failures to 5xx.  Here the store
holds a pending challenge, the body decodes, the user is present, and
`u2f.Register` rejects the response (`registerVerify` returns `none`): the
source answers `http.StatusInternalServerError`. -/
theorem c8_counterexample :
    registerResponseHandler (fun _ => none) true "u"
        [("u", [("challenge", StoredVal.ch ⟨[1], 0, "a", ["a"]⟩)])] =
      (500, [("u", [])]) ∧
    is4xxStatus 500 = false := by
  constructor
  · rfl
  · rfl

/-- C8 amended: malformed request bodies, a missing user, and a missing or
unreadable pending challenge are reported with 400; but registration
verification failures and assertion verification failures (including
counter replay) are reported with 500, the same class as storage failures,
so 4xx does not cover all protocol errors. -/
theorem c8_amended_status_mapping
    (regV : Challenge → Option Registration)
    (verify : Registration → SignResponse → Challenge → Bool)
    (user msg : String) (resp : SignResponse)
    (σa σe σb σ1 σ1' : Store) (ca cb : Challenge)
    (regs : List Registration) (b : Bucket)
    (hu : user ≠ "")
    (hch : getChallenge σa user = .ok (ca, σ1))
    (hrv : regV ca = none)
    (he : getChallenge σe user = .error msg)
    (hch2 : getChallenge σb user = .ok (cb, σ1'))
    (hregs : getRegistrations σ1' user = .ok regs)
    (hne : regs ≠ [])
    (hb : sget σ1' user = some b)
    (hall : ∀ reg ∈ regs, verify reg resp cb = false) :
    registerResponseHandler regV false user σa = (400, σa) ∧
    registerResponseHandler regV true "" σa = (400, σa) ∧
    registerResponseHandler regV true user σe = (400, σe) ∧
    registerResponseHandler regV true user σa = (500, σ1) ∧
    signResponseHandler verify true user resp σb = (500, σ1') := by
  refine ⟨rfl, rfl, ?_, ?_, ?_⟩
  · simp only [registerResponseHandler, Bool.true_eq_false, if_false, if_neg hu, he]
  · simp only [registerResponseHandler, Bool.true_eq_false, if_false, if_neg hu,
      hch, hrv]
  · have hemp : regs.isEmpty = false := by
      cases regs with
      | nil => exact absurd rfl hne
      | cons r rs => rfl
    simp only [signResponseHandler, Bool.true_eq_false, if_false, if_neg hu, hch2,
      hregs, hemp, Bool.false_eq_true]
    exact signLoop_all_fail verify σ1' user resp cb regs b hu hb hall

theorem c8_amended_status_mapping_witness :
    registerResponseHandler (fun _ => none) false "u"
        [("u", [("challenge", StoredVal.ch ⟨[1], 0, "a", ["a"]⟩)])] =
      (400, [("u", [("challenge", StoredVal.ch ⟨[1], 0, "a", ["a"]⟩)])]) ∧
    registerResponseHandler (fun _ => none) true ""
        [("u", [("challenge", StoredVal.ch ⟨[1], 0, "a", ["a"]⟩)])] =
      (400, [("u", [("challenge", StoredVal.ch ⟨[1], 0, "a", ["a"]⟩)])]) ∧
    registerResponseHandler (fun _ => none) true "u" [] = (400, []) ∧
    registerResponseHandler (fun _ => none) true "u"
        [("u", [("challenge", StoredVal.ch ⟨[1], 0, "a", ["a"]⟩)])] =
      (500, [("u", [])]) ∧
    signResponseHandler (fun _ _ _ => false) true "u" ⟨"kh", 1⟩
        [("u", [("challenge", StoredVal.ch ⟨[1], 0, "a", ["a"]⟩),
          ("reg-0", StoredVal.reg (encodeRegSer (serOfReg ⟨[], [], 0, 0, none⟩)))])] =
      (500, [("u", [("reg-0", StoredVal.reg (encodeRegSer (serOfReg ⟨[], [], 0, 0, none⟩)))])]) :=
  c8_amended_status_mapping (fun _ => none) (fun _ _ _ => false)
    "u" "challenge for user missing" ⟨"kh", 1⟩
    [("u", [("challenge", StoredVal.ch ⟨[1], 0, "a", ["a"]⟩)])]
    []
    [("u", [("challenge", StoredVal.ch ⟨[1], 0, "a", ["a"]⟩),
      ("reg-0", StoredVal.reg (encodeRegSer (serOfReg ⟨[], [], 0, 0, none⟩)))])]
    [("u", [])]
    [("u", [("reg-0", StoredVal.reg (encodeRegSer (serOfReg ⟨[], [], 0, 0, none⟩)))])]
    ⟨[1], 0, "a", ["a"]⟩ ⟨[1], 0, "a", ["a"]⟩
    [⟨[], [], 0, 0, none⟩]
    [("reg-0", StoredVal.reg (encodeRegSer (serOfReg ⟨[], [], 0, 0, none⟩)))]
    (by decide) rfl rfl rfl rfl rfl (by decide) rfl (fun r _ => rfl)

/-! ## C6: round-trip serialization of credentials -/

theorem regOfSer_serOfReg (r : Registration) : regOfSer (serOfReg r) = r := rfl

/-- C6: storing a credential with `saveRegistration` (JSON serialization:
base64 byte strings, decimal big integers) and reading it back with
`getRegistrations` returns the credential exactly — byte-identical raw
payload and key handle, and exactly equal public-key coordinates. -/
theorem c6_roundtrip_serialization (σ σ' : Store) (user : String) (reg : Registration)
    (hu : user ≠ "") (hnew : sget σ user = none) (hwf : wfReg reg)
    (hsave : saveRegistration σ user reg = .ok σ') :
    getRegistrations σ' user = .ok [reg] := by
  rcases saveRegistration_ok_inv σ σ' user reg hsave with ⟨b, i, hσ, -, -⟩ | ⟨-, rfl⟩
  · rw [hnew] at hσ
    exact absurd hσ (by simp)
  · have hBdef : bput [] (regSlot 0) (.reg (encodeRegSer (serOfReg reg))) =
        [(regSlot 0, StoredVal.reg (encodeRegSer (serOfReg reg)))] := rfl
    have hdec0 : decodeRegSer (encodeRegSer (serOfReg reg)) = .ok (serOfReg reg) :=
      decodeRegSer_encodeRegSer reg hwf
    have hne0 : ∀ i ∈ slotIdxs, i ≠ 0 → (regSlot 0 : String) ≠ regSlot i := by decide
    have h0 : bget [(regSlot 0, StoredVal.reg (encodeRegSer (serOfReg reg)))]
        (regSlot 0) = some (StoredVal.reg (encodeRegSer (serOfReg reg))) := by
      simp [bget]
    have hget : ∀ i ∈ slotIdxs, i ≠ 0 →
        bget [(regSlot 0, StoredVal.reg (encodeRegSer (serOfReg reg)))]
          (regSlot i) = none := by
      intro i hi hne
      simp only [bget]
      rw [if_neg (hne0 i hi hne)]
    have hwfB : ∀ i ∈ slotIdxs,
        slotOkB [(regSlot 0, StoredVal.reg (encodeRegSer (serOfReg reg)))] i = true := by
      intro i hi
      by_cases hz : i = 0
      · subst hz
        simp [slotOkB, h0, hdec0, okOf]
      · simp [slotOkB, hget i hi hz]
    have hd0 : slotDecode [(regSlot 0, StoredVal.reg (encodeRegSer (serOfReg reg)))] 0 =
        some reg := by
      simp only [slotDecode, h0, hdec0, okOf, Option.map_some', regOfSer_serOfReg]
    have hdn : ∀ i ∈ slotIdxs, i ≠ 0 →
        slotDecode [(regSlot 0, StoredVal.reg (encodeRegSer (serOfReg reg)))] i =
          none := by
      intro i hi hne
      simp only [slotDecode, hget i hi hne]
    have hfm : List.filterMap
        (slotDecode [(regSlot 0, StoredVal.reg (encodeRegSer (serOfReg reg)))])
        slotIdxs = [reg] := by
      have e1 := hdn 1 (by decide) (by decide)
      have e2 := hdn 2 (by decide) (by decide)
      have e3 := hdn 3 (by decide) (by decide)
      have e4 := hdn 4 (by decide) (by decide)
      have e5 := hdn 5 (by decide) (by decide)
      have e6 := hdn 6 (by decide) (by decide)
      have e7 := hdn 7 (by decide) (by decide)
      have e8 := hdn 8 (by decide) (by decide)
      have e9 := hdn 9 (by decide) (by decide)
      simp only [slotIdxs, List.filterMap_cons, List.filterMap_nil, hd0,
        e1, e2, e3, e4, e5, e6, e7, e8, e9]
    have hB : sget (sput (sput σ user []) user
        (bput [] (regSlot 0) (.reg (encodeRegSer (serOfReg reg))))) user =
        some [(regSlot 0, StoredVal.reg (encodeRegSer (serOfReg reg)))] := by
      rw [sget_sput_self, hBdef]
    simp only [getRegistrations, hB]
    rw [readSlots_eq _ slotIdxs hwfB, hfm]

theorem c6_roundtrip_serialization_witness :
    getRegistrations
        [("u", [("reg-0",
          StoredVal.reg (encodeRegSer (serOfReg ⟨[10, 200], [1, 2, 3], 7, -9, some [255]⟩)))])]
        "u" =
      .ok [⟨[10, 200], [1, 2, 3], 7, -9, some [255]⟩] :=
  c6_roundtrip_serialization [] [("u", [("reg-0",
      StoredVal.reg (encodeRegSer (serOfReg ⟨[10, 200], [1, 2, 3], 7, -9, some [255]⟩)))])]
    "u" ⟨[10, 200], [1, 2, 3], 7, -9, some [255]⟩
    (by decide) rfl (by decide) rfl

/-! ## Witnesses for the remaining hypothesised claims -/

theorem c3_slot_capacity_witness :
    saveRegistration
        [("u", [("reg-0", StoredVal.ctr [1]), ("reg-1", StoredVal.ctr [1]),
          ("reg-2", StoredVal.ctr [1]), ("reg-3", StoredVal.ctr [1]),
          ("reg-4", StoredVal.ctr [1]), ("reg-5", StoredVal.ctr [1]),
          ("reg-6", StoredVal.ctr [1]), ("reg-7", StoredVal.ctr [1]),
          ("reg-8", StoredVal.ctr [1]), ("reg-9", StoredVal.ctr [1])])]
        "u" ⟨[], [], 0, 0, none⟩ = .error "number of slots exceeded" ∧
    postStore (saveRegistration
        [("u", [("reg-0", StoredVal.ctr [1]), ("reg-1", StoredVal.ctr [1]),
          ("reg-2", StoredVal.ctr [1]), ("reg-3", StoredVal.ctr [1]),
          ("reg-4", StoredVal.ctr [1]), ("reg-5", StoredVal.ctr [1]),
          ("reg-6", StoredVal.ctr [1]), ("reg-7", StoredVal.ctr [1]),
          ("reg-8", StoredVal.ctr [1]), ("reg-9", StoredVal.ctr [1])])]
        "u" ⟨[], [], 0, 0, none⟩)
      [("u", [("reg-0", StoredVal.ctr [1]), ("reg-1", StoredVal.ctr [1]),
        ("reg-2", StoredVal.ctr [1]), ("reg-3", StoredVal.ctr [1]),
        ("reg-4", StoredVal.ctr [1]), ("reg-5", StoredVal.ctr [1]),
        ("reg-6", StoredVal.ctr [1]), ("reg-7", StoredVal.ctr [1]),
        ("reg-8", StoredVal.ctr [1]), ("reg-9", StoredVal.ctr [1])])] =
      [("u", [("reg-0", StoredVal.ctr [1]), ("reg-1", StoredVal.ctr [1]),
        ("reg-2", StoredVal.ctr [1]), ("reg-3", StoredVal.ctr [1]),
        ("reg-4", StoredVal.ctr [1]), ("reg-5", StoredVal.ctr [1]),
        ("reg-6", StoredVal.ctr [1]), ("reg-7", StoredVal.ctr [1]),
        ("reg-8", StoredVal.ctr [1]), ("reg-9", StoredVal.ctr [1])])] ∧
    getRegistrations (postStore (saveRegistration
        [("u", [("reg-0", StoredVal.ctr [1]), ("reg-1", StoredVal.ctr [1]),
          ("reg-2", StoredVal.ctr [1]), ("reg-3", StoredVal.ctr [1]),
          ("reg-4", StoredVal.ctr [1]), ("reg-5", StoredVal.ctr [1]),
          ("reg-6", StoredVal.ctr [1]), ("reg-7", StoredVal.ctr [1]),
          ("reg-8", StoredVal.ctr [1]), ("reg-9", StoredVal.ctr [1])])]
        "u" ⟨[], [], 0, 0, none⟩)
      [("u", [("reg-0", StoredVal.ctr [1]), ("reg-1", StoredVal.ctr [1]),
        ("reg-2", StoredVal.ctr [1]), ("reg-3", StoredVal.ctr [1]),
        ("reg-4", StoredVal.ctr [1]), ("reg-5", StoredVal.ctr [1]),
        ("reg-6", StoredVal.ctr [1]), ("reg-7", StoredVal.ctr [1]),
        ("reg-8", StoredVal.ctr [1]), ("reg-9", StoredVal.ctr [1])])]) "u" =
      getRegistrations
        [("u", [("reg-0", StoredVal.ctr [1]), ("reg-1", StoredVal.ctr [1]),
          ("reg-2", StoredVal.ctr [1]), ("reg-3", StoredVal.ctr [1]),
          ("reg-4", StoredVal.ctr [1]), ("reg-5", StoredVal.ctr [1]),
          ("reg-6", StoredVal.ctr [1]), ("reg-7", StoredVal.ctr [1]),
          ("reg-8", StoredVal.ctr [1]), ("reg-9", StoredVal.ctr [1])])] "u" :=
  c3_slot_capacity
    [("u", [("reg-0", StoredVal.ctr [1]), ("reg-1", StoredVal.ctr [1]),
      ("reg-2", StoredVal.ctr [1]), ("reg-3", StoredVal.ctr [1]),
      ("reg-4", StoredVal.ctr [1]), ("reg-5", StoredVal.ctr [1]),
      ("reg-6", StoredVal.ctr [1]), ("reg-7", StoredVal.ctr [1]),
      ("reg-8", StoredVal.ctr [1]), ("reg-9", StoredVal.ctr [1])])]
    "u" ⟨[], [], 0, 0, none⟩
    [("reg-0", StoredVal.ctr [1]), ("reg-1", StoredVal.ctr [1]),
      ("reg-2", StoredVal.ctr [1]), ("reg-3", StoredVal.ctr [1]),
      ("reg-4", StoredVal.ctr [1]), ("reg-5", StoredVal.ctr [1]),
      ("reg-6", StoredVal.ctr [1]), ("reg-7", StoredVal.ctr [1]),
      ("reg-8", StoredVal.ctr [1]), ("reg-9", StoredVal.ctr [1])]
    (by decide) rfl (by decide)

theorem c9_getRegistrations_total_witness :
    getRegistrations [] "u" = .ok [] ∧
    getRegistrations
        [("u", [("reg-3",
          StoredVal.reg (encodeRegSer (serOfReg ⟨[1], [2], 5, -6, none⟩)))])] "u" =
      .ok (slotRegs
        [("reg-3", StoredVal.reg (encodeRegSer (serOfReg ⟨[1], [2], 5, -6, none⟩)))]) :=
  c9_getRegistrations_total []
    [("u", [("reg-3", StoredVal.reg (encodeRegSer (serOfReg ⟨[1], [2], 5, -6, none⟩)))])]
    "u"
    [("reg-3", StoredVal.reg (encodeRegSer (serOfReg ⟨[1], [2], 5, -6, none⟩)))]
    rfl rfl (by decide)

theorem c10_counter_roundtrip_witness :
    ∃ σ', saveCounter [] "u" "kh" 4294967295 = .ok σ' ∧
      retrieveCounter σ' "u" "kh" = .ok (4294967295, σ') :=
  c10_counter_roundtrip [] "u" "kh" 4294967295 (by decide) (by decide)

end YouTwoEff
